import Mathlib

/-!
Verification development for the goflyway UDP relay bridge (proxy/udp.go).

Bytes are modelled as natural numbers (each in 0..255 on the wire), byte
buffers as lists of naturals, Go errors and runtime panics as values of an
explicit error type carried in Except.  Machine-integer arithmetic that can
wrap (uint16 conversions) is modelled with explicit `% 65536`; the signed
counter waitingMore.remain is modelled as Int because it is deliberately
driven below zero by the source.
-/

namespace GoflywayUDP

/-- Modelled from the spec: the SOCKS version marker constant socksVersion5
(declared elsewhere in the repository, outside proxy/udp.go); spec section 4.1
fixes it to 5. -/
def socksVersion5 : Nat := 5

/-- Modelled from the spec: the address-type constant socksAddrIPv4 (declared
elsewhere in the repository); spec section 6 fixes addr_type 1 = IPv4. -/
def socksAddrIPv4 : Nat := 1

/-- Modelled from the spec: the address-type constant socksAddrDomain (declared
elsewhere in the repository); spec section 6 fixes addr_type 3 = domain. -/
def socksAddrDomain : Nat := 3

/-- Modelled from the spec: the address-type constant socksAddrIPv6 (declared
elsewhere in the repository); spec section 6 fixes addr_type 4 = IPv6. -/
def socksAddrIPv6 : Nat := 4

/-- Errors and aborts of parseUDPHeader: the three fmt.Errorf protocol errors,
the io.EOF short-buffer error, and a Go runtime panic caused by an
out-of-range buffer index. -/
inductive PErr where
  | badVersion (v : Nat)
  | badMethod (m : Nat)
  | badAddrType (t : Nat)
  | eof
  | panicOOB
deriving Repr, DecidableEq

/-- The uAddr struct of proxy/udp.go: ip is net.IP (none models a nil slice),
host a byte string ("" modelled as []), plus port and recorded header size.
Defaults are the Go zero values. -/
structure UAddr where
  ip : Option (List Nat) := none
  host : List Nat := []
  port : Nat := 0
  size : Nat := 0
deriving Repr, DecidableEq

/-- Indexing buf[i] in Go: the value when in range, a runtime panic when out
of range. -/
def idx (l : List Nat) (i : Nat) : Except PErr Nat :=
  match l.get? i with
  | some v => Except.ok v
  | none => Except.error PErr.panicOOB

/-- The version/command validation block of parseUDPHeader (lines 73-81),
executed when omitCheck is false; each failed check is an early return. -/
def parseChecks (buf : List Nat) : Except PErr Unit :=
  match idx buf 0 with
  | Except.error e => Except.error e
  | Except.ok b0 =>
    if b0 ≠ socksVersion5 then Except.error (PErr.badVersion b0)
    else
      match idx buf 1 with
      | Except.error e => Except.error e
      | Except.ok b1 =>
        if b1 ≠ 1 ∧ b1 ≠ 3 then Except.error (PErr.badMethod b1)
        else Except.ok ()

/-- The switch on buf[3] of parseUDPHeader (lines 84-93) computing addr.size:
IPv4 gives 3+1+4+2, IPv6 gives 3+1+16+2, domain gives 3+1+1+buf[4]+2, any
other type byte is a protocol error. -/
def parseSize (buf : List Nat) : Except PErr Nat :=
  match idx buf 3 with
  | Except.error e => Except.error e
  | Except.ok b3 =>
    if b3 = socksAddrIPv4 then Except.ok (3 + 1 + 4 + 2)
    else if b3 = socksAddrIPv6 then Except.ok (3 + 1 + 16 + 2)
    else if b3 = socksAddrDomain then
      match idx buf 4 with
      | Except.error e => Except.error e
      | Except.ok b4 => Except.ok (3 + 1 + 1 + b4 + 2)
    else Except.error (PErr.badAddrType b3)

/-- parseUDPHeader of proxy/udp.go on its conn == nil path (the path every
caller inside proxy/udp.go uses: a fully supplied buffer, n = 0, so the
io.ReadFull refill is skipped and a buffer shorter than the computed header
size returns io.EOF).  Returns the method byte buf[1] and the populated
address; every Go early return is a match on the intermediate result. -/
def parseUDPHeaderBuf (buf : List Nat) (omitCheck : Bool) :
    Except PErr (Nat × UAddr) :=
  match (if omitCheck then Except.ok () else parseChecks buf) with
  | Except.error e => Except.error e
  | Except.ok _ =>
    match parseSize buf with
    | Except.error e => Except.error e
    | Except.ok size =>
      if buf.length < size then Except.error PErr.eof
      else
        match idx buf 1 with
        | Except.error e => Except.error e
        | Except.ok method =>
          let rawaddr := (buf.take (size - 2)).drop 3
          let port := 256 * buf.getD (size - 2) 0 + buf.getD (size - 1) 0
          let b3 := buf.getD 3 0
          if b3 = socksAddrIPv4 ∨ b3 = socksAddrIPv6 then
            Except.ok (method,
              { ip := some (rawaddr.drop 1), host := [], port := port, size := size })
          else
            Except.ok (method,
              { ip := none, host := rawaddr.drop 2, port := port, size := size })

/-- PutUint16: the two big-endian bytes of a Go uint16 value. -/
def be16 (v : Nat) : List Nat := [v / 256 % 256, v % 256]

/-- Modelled from the spec: the fixed IPv4 template header constant
udpHeaderIPv4 (declared elsewhere in the repository).  Spec section 4.1 calls
for a fixed template with IP bytes and port substituted at offsets 4..7 and
8..9 respectively (so its length is 10, matching the parsed IPv4 header
size), with address type 1 at offset 3 per spec section 6. -/
def udpHeaderIPv4 : List Nat := [0, 0, 0, 1, 0, 0, 0, 0, 0, 0]

/-- Modelled from the spec: the fixed IPv6 template header constant
udpHeaderIPv6 (declared elsewhere in the repository), length 22 with address
type 4 at offset 3, IP bytes at 4..19 and port at 20..21. -/
def udpHeaderIPv6 : List Nat := [0, 0, 0, 4] ++ List.replicate 18 0

/-- The SOCKS5 header that udpBridgeConn.write (lines 189-218) builds in
front of the payload: xbuf[:ln].  A domain destination (dst.host nonempty)
gets type 3, the length byte byte(len host), the host bytes and the port; an
IPv4 destination fills the IPv4 template; anything else fills the IPv6
template.  copy truncation is modelled by take/padding. -/
def serializeUDPHeader (dst : UAddr) : List Nat :=
  let ipb := dst.ip.getD []
  if dst.host ≠ [] then
    [0, 0, 0, socksAddrDomain, dst.host.length % 256] ++ dst.host
      ++ be16 (dst.port % 65536)
  else if ipb.length = 4 then
    [0, 0, 0, socksAddrIPv4] ++ (ipb.take 4 ++ List.replicate (4 - ipb.length) 0)
      ++ be16 (dst.port % 65536)
  else
    [0, 0, 0, socksAddrIPv6] ++ (ipb.take 16 ++ List.replicate (16 - ipb.length) 0)
      ++ be16 (dst.port % 65536)

/-- The private reassembly state of udpBridgeConn: waitingMore.buf,
waitingMore.remain (a Go int, driven negative by the surplus branch, hence
Int) and the incompleteLen flag. -/
structure WState where
  waitingBuf : List Nat := []
  waitingRemain : Int := 0
  incompleteLen : Bool := false
deriving Repr, DecidableEq

/-- The Go zero value of the reassembly state: a fresh udpBridgeConn. -/
def initialWState : WState := {}

mutual

/-- udpBridgeConn.Write (lines 227-308): the reassembly state machine.
Returns the successor state and, in order, the payloads handed to the
low-level c.write (one per completed frame); all socket writes are assumed
to succeed, matching the error-free executions the claims quantify over.
The returned byte count is handled separately (bridgeWriteCount), because
the deferred n = len(b) observes the reassignment of b at line 275. -/
def bridgeWrite (s : WState) (b : List Nat) : WState × List (List Nat) :=
  if _hb : b = [] then (s, [])
  else if s.incompleteLen then
    bridgeTEST { s with incompleteLen := false }
      (256 * s.waitingBuf.headD 0 + b.headD 0) (b.drop 1)
  else if _hr : 0 < s.waitingRemain then
    let remain := s.waitingRemain.toNat
    if (s.waitingRemain - b.length : Int) = 0 then
      ({ s with waitingRemain := 0 }, [s.waitingBuf ++ b])
    else if 0 < (s.waitingRemain - b.length : Int) then
      ({ s with waitingRemain := s.waitingRemain - b.length,
                waitingBuf := s.waitingBuf ++ b }, [])
    else
      let em := s.waitingBuf ++ b.take remain
      let r := bridgeCont { s with waitingRemain := s.waitingRemain - b.length }
        (b.drop remain)
      (r.1, em :: r.2)
  else bridgeCont s b
termination_by (3 * b.length + 1)
decreasing_by
  all_goals simp_wf
  all_goals have hb : 0 < b.length := List.length_pos.mpr _hb
  all_goals try simp [List.length_drop]
  all_goals omega

/-- Lines 279-287 of udpBridgeConn.Write: the code after the waitingMore
block, reached directly or as the fallthrough after the surplus branch with
the trailing bytes (which are never empty there, so the leading guard is
vacuous).  A single byte cannot carry the 2-byte length and is buffered;
otherwise the first two bytes form the big-endian frame length. -/
def bridgeCont (s : WState) (b : List Nat) : WState × List (List Nat) :=
  if _h0 : b = [] then (s, [])
  else if _h1 : b.length = 1 then
    ({ s with waitingBuf := b, incompleteLen := true }, [])
  else
    bridgeTEST s (256 * b.headD 0 + (b.drop 1).headD 0) (b.drop 2)
termination_by (3 * b.length)
decreasing_by
  simp_wf
  have hb : 0 < b.length := List.length_pos.mpr _h0
  try simp [List.length_drop]
  omega

/-- The TEST label of udpBridgeConn.Write (lines 289-307): compare the bytes
in hand against the frame length; buffer a deficit, emit an exact fit, or
emit the first ln bytes and re-process the surplus through Write. -/
def bridgeTEST (s : WState) (ln : Nat) (buf : List Nat) : WState × List (List Nat) :=
  if buf.length < ln then
    ({ s with waitingBuf := buf, waitingRemain := (ln : Int) - buf.length }, [])
  else if buf.length = ln then (s, [buf])
  else
    let r := bridgeWrite s (buf.drop ln)
    (r.1, buf.take ln :: r.2)
termination_by (3 * buf.length + 2)
decreasing_by
  simp_wf
  try simp [List.length_drop]
  omega

end

/-- The byte count a successful udpBridgeConn.Write reports.  The deferred
function at lines 230-237 sets n = len(b) whenever err == nil, but the
closure reads the parameter variable b, and line 275 reassigns
b = b[remain:] on the path where the chunk strictly over-fills a pending
payload remainder; every success return reached after that line (lines 283,
294, 298, 307, the recursion included, which never re-enters the
remain-positive branch) therefore reports the trailing bytes' length, and
every other return the full chunk length.  The branch structure mirrors
Write's entry dispatch. -/
def bridgeWriteCount (s : WState) (b : List Nat) : Nat :=
  if b = [] then b.length
  else if s.incompleteLen then b.length
  else if 0 < s.waitingRemain then
    if (s.waitingRemain - b.length : Int) = 0 then b.length
    else if 0 < (s.waitingRemain - b.length : Int) then b.length
    else (b.drop s.waitingRemain.toNat).length
  else b.length

/-- Feeding a sequence of chunks through successive Write calls,
concatenating the emitted payloads. -/
def feedAll (s : WState) : List (List Nat) → WState × List (List Nat)
  | [] => (s, [])
  | c :: cs =>
    let r := bridgeWrite s c
    let r2 := feedAll r.1 cs
    (r2.1, r.2 ++ r2.2)

/-- The writer state after consuming the first k wire bytes of a single
frame with length bytes l1 l2 and payload p, starting from the idle state:
idle at 0, awaiting the second length byte at 1, awaiting the missing
payload bytes from 2 onwards. -/
def c3State (l1 : Nat) (p : List Nat) (k : Nat) : WState :=
  if k = 0 then initialWState
  else if k = 1 then { waitingBuf := [l1], waitingRemain := 0, incompleteLen := true }
  else { waitingBuf := p.take (k - 2),
         waitingRemain := (p.length : Int) - ((k : Int) - 2),
         incompleteLen := false }

/-- Invariant tying the writer state to the number of consumed wire bytes:
exact below frame completion, unconstrained once the frame is emitted (the
source leaves stale buffers behind, but with incompleteLen unset and a
non-positive remain they are never read again). -/
def C3Inv (l1 : Nat) (p : List Nat) (k : Nat) (s : WState) : Prop :=
  if k < 2 + p.length then s = c3State l1 p k else True

/-- udpBridgeConn.write (lines 174-225) with the socket write succeeding:
the datagram handed to the socket (none when nothing is sent) and the byte
count the function returns.  Raw mode sends the payload unchanged and
returns len(b) + 2; SOCKS mode with no learned peer returns early after the
warning, sending nothing, n = 0, err = nil; otherwise the serialized SOCKS5
header is prepended and WriteTo's count ln + len(b) is adjusted by
+ 2 - ln. -/
def bridgeSend (socks : Bool) (srcKnown : Bool) (dst : UAddr) (b : List Nat) :
    Option (List Nat) × Nat :=
  if !socks then (some b, b.length + 2)
  else if !srcKnown then (none, 0)
  else
    ((serializeUDPHeader dst ++ b).take ((serializeUDPHeader dst).length + b.length) |> some,
      (serializeUDPHeader dst).length + b.length + 2 - (serializeUDPHeader dst).length)

/-- The closed-count pass of the supervision loop in handleUDPtoTCP (lines
367-380): count the members whose closed flag is set; the loop breaks when
the count reaches the pool size maxConns. -/
def countClosedSrcs (closedFlags : List Bool) : Nat :=
  closedFlags.foldl (fun c s => if s then c + 1 else c) 0

/-- Modelled from the spec: proxy.DialUpstream (declared elsewhere in the
repository) closes the supplied local endpoint when its dial fails
immediately, and udpBridgeConn.Close (lines 310-313) sets the closed flag,
so per spec section 7 a member whose dial failed "still counts as closed
for supervision purposes". -/
def dialFailedMemberClosed : Bool := true

/-- The break condition of the polling supervision loop over a pool whose
flags no longer change (no live connection remains): the loop terminates
exactly when the closed count equals the pool size. -/
def superviseLoopBreaks (closedFlags : List Bool) : Bool :=
  countClosedSrcs closedFlags == closedFlags.length

/-- Aborts and errors of udpBridgeConn.Read: the caller-contract panic for
an undersized buffer, and a failed SOCKS header parse of the inbound
datagram (Go panics inside that parse propagate with their PErr tag). -/
inductive RdErr where
  | panicSize
  | parseFail (e : PErr)
deriving Repr, DecidableEq

/-- The fixed frame-size ceiling plus 2-byte length prefix checked at the
top of udpBridgeConn.Read (line 139). -/
def expectedMaxPacketSize : Nat := 2050

/-- udpBridgeConn.Read (lines 138-172) on a successful socket read: blen is
the caller's buffer length, initBuf the one-shot seed, socks the mode and
datagram the bytes ReadFrom would deliver (truncated to the buffer).  The
result carries the bytes deposited in the caller's buffer (2-byte big-endian
length prefix, then the payload, as far as the buffer allows) together with
the returned count, and the seed buffer's state after the call. -/
def bridgeRead (blen : Nat) (initBuf : Option (List Nat)) (socks : Bool)
    (datagram : List Nat) : Except RdErr (List Nat × Nat) × Option (List Nat) :=
  if blen < expectedMaxPacketSize then (Except.error RdErr.panicSize, initBuf)
  else
    match initBuf with
    | some ib =>
      (Except.ok (be16 (ib.length % 65536) ++ ib.take (blen - 2), ib.length + 2),
        none)
    | none =>
      let d := datagram.take blen
      if socks then
        match parseUDPHeaderBuf d true with
        | Except.error e => (Except.error (RdErr.parseFail e), none)
        | Except.ok (_, dst) =>
          (Except.ok (be16 ((d.length - dst.size) % 65536) ++
              (d.drop dst.size).take (blen - 2), d.length - dst.size + 2), none)
      else
        (Except.ok (be16 (d.length % 65536) ++ d.take (blen - 2), d.length + 2),
          none)

lemma bridgeWrite_nil (s : WState) : bridgeWrite s [] = (s, []) := by
  simp [bridgeWrite]

lemma bridgeWrite_incompleteLen (s : WState) (b : List Nat) (hb : b ≠ [])
    (hI : s.incompleteLen = true) :
    bridgeWrite s b = bridgeTEST { s with incompleteLen := false }
      (256 * s.waitingBuf.headD 0 + b.headD 0) (b.drop 1) := by
  rw [bridgeWrite]
  simp [hb, hI]

lemma bridgeWrite_remain_exact (s : WState) (b : List Nat) (hb : b ≠ [])
    (hI : s.incompleteLen = false) (he : s.waitingRemain = (b.length : Int))
    (hR : 0 < s.waitingRemain) :
    bridgeWrite s b = ({ s with waitingRemain := 0 }, [s.waitingBuf ++ b]) := by
  rw [bridgeWrite]
  simp [hb, hI, hR, he]

lemma bridgeWrite_remain_insufficient (s : WState) (b : List Nat) (hb : b ≠ [])
    (hI : s.incompleteLen = false) (hlt : (b.length : Int) < s.waitingRemain) :
    bridgeWrite s b = ({ s with waitingRemain := s.waitingRemain - b.length,
                                waitingBuf := s.waitingBuf ++ b }, []) := by
  have hR : 0 < s.waitingRemain := by
    have : (0 : Int) ≤ (b.length : Int) := Int.ofNat_nonneg _
    omega
  rw [bridgeWrite]
  have h1 : ¬ (s.waitingRemain - (b.length : Int) = 0) := by omega
  have h2 : 0 < s.waitingRemain - (b.length : Int) := by omega
  simp [hb, hI, hR, h1, h2]

lemma bridgeWrite_remain_surplus (s : WState) (b : List Nat) (hb : b ≠ [])
    (hI : s.incompleteLen = false) (hR : 0 < s.waitingRemain)
    (hgt : s.waitingRemain < (b.length : Int)) :
    bridgeWrite s b =
      ((bridgeCont { s with waitingRemain := s.waitingRemain - b.length }
          (b.drop s.waitingRemain.toNat)).1,
        (s.waitingBuf ++ b.take s.waitingRemain.toNat) ::
          (bridgeCont { s with waitingRemain := s.waitingRemain - b.length }
            (b.drop s.waitingRemain.toNat)).2) := by
  rw [bridgeWrite]
  have h1 : ¬ (s.waitingRemain - (b.length : Int) = 0) := by omega
  have h2 : ¬ (0 < s.waitingRemain - (b.length : Int)) := by omega
  simp [hb, hI, hR, h1, h2]

lemma bridgeWrite_fresh (s : WState) (b : List Nat)
    (hI : s.incompleteLen = false) (hR : ¬ 0 < s.waitingRemain) :
    bridgeWrite s b = bridgeCont s b := by
  rcases b with _ | ⟨x, xs⟩
  · rw [bridgeWrite_nil, bridgeCont]
    simp
  · rw [bridgeWrite]
    simp [hI, hR]

lemma bridgeCont_one (s : WState) (b : List Nat) (h1 : b.length = 1) :
    bridgeCont s b = ({ s with waitingBuf := b, incompleteLen := true }, []) := by
  have hb : b ≠ [] := by
    intro h
    rw [h] at h1
    simp at h1
  rw [bridgeCont]
  simp [hb, h1]

lemma bridgeCont_parse (s : WState) (b : List Nat) (h2 : 2 ≤ b.length) :
    bridgeCont s b =
      bridgeTEST s (256 * b.headD 0 + (b.drop 1).headD 0) (b.drop 2) := by
  have hb : b ≠ [] := by
    intro h
    rw [h] at h2
    simp at h2
  have h1 : ¬ b.length = 1 := by omega
  rw [bridgeCont]
  simp [hb, h1]

lemma bridgeTEST_lt (s : WState) (ln : Nat) (buf : List Nat)
    (h : buf.length < ln) :
    bridgeTEST s ln buf =
      ({ s with waitingBuf := buf, waitingRemain := (ln : Int) - buf.length }, []) := by
  rw [bridgeTEST]
  simp [h]

lemma bridgeTEST_eq (s : WState) (ln : Nat) (buf : List Nat)
    (h : buf.length = ln) :
    bridgeTEST s ln buf = (s, [buf]) := by
  rw [bridgeTEST]
  simp [h]

lemma bridgeTEST_gt (s : WState) (ln : Nat) (buf : List Nat)
    (h : ln < buf.length) :
    bridgeTEST s ln buf =
      ((bridgeWrite s (buf.drop ln)).1,
        buf.take ln :: (bridgeWrite s (buf.drop ln)).2) := by
  have h1 : ¬ buf.length < ln := by omega
  have h2 : ¬ buf.length = ln := by omega
  rw [bridgeTEST]
  simp [h1, h2]

lemma c3_step (l1 l2 : Nat) (p : List Nat) (hp : p.length = 256 * l1 + l2)
    (k m : Nat) (s : WState) (hkm : k + m ≤ 2 + p.length)
    (hinv : C3Inv l1 p k s) :
    C3Inv l1 p (k + m) (bridgeWrite s (((l1 :: l2 :: p).drop k).take m)).1 ∧
      (bridgeWrite s (((l1 :: l2 :: p).drop k).take m)).2 =
        (if k < 2 + p.length ∧ k + m = 2 + p.length then [p] else []) := by
  rcases Nat.eq_zero_or_pos m with hm | hm
  · subst hm
    simp only [List.take_zero, bridgeWrite_nil, Nat.add_zero]
    refine ⟨hinv, ?_⟩
    have hx : ¬ (k < 2 + p.length ∧ k = 2 + p.length) := by omega
    simp [hx]
    all_goals omega
  · rcases k with _ | k
    · -- k = 0 : the idle state
      have h0 : (0 : Nat) < 2 + p.length := by omega
      have hs : s = initialWState := by simpa [C3Inv, c3State, h0] using hinv
      subst hs
      rcases m with _ | _ | m
      · omega
      · -- one byte: the first length byte is buffered
        simp only [List.drop_zero, List.take_succ_cons, List.take_zero]
        rw [bridgeWrite_fresh _ _ rfl (by simp [initialWState]),
          bridgeCont_one _ _ (by simp)]
        constructor
        · have h1 : (1 : Nat) < 2 + p.length := by omega
          simp [C3Inv, c3State, h1, initialWState]
        · have hx : ¬ (0 < 2 + p.length ∧ 0 + 1 = 2 + p.length) := by omega
          simp [hx]
          all_goals omega
      · -- at least both length bytes
        have hmp : m ≤ p.length := by omega
        simp only [List.drop_zero, List.take_succ_cons]
        rw [bridgeWrite_fresh _ _ rfl (by simp [initialWState]),
          bridgeCont_parse _ _ (by simp),
          show (l1 :: l2 :: p.take m).drop 2 = p.take m from rfl]
        simp only [List.headD_cons, List.drop_succ_cons, List.drop_zero]
        have hln : 256 * l1 + l2 = p.length := hp.symm
        rw [hln]
        have hlen : (p.take m).length = m := by simp [List.length_take]; omega
        rcases Nat.lt_or_ge m p.length with hcase | hcase
        · rw [bridgeTEST_lt _ _ _ (by rw [hlen]; exact hcase)]
          constructor
          · have h2 : 0 + (m + 1 + 1) < 2 + p.length := by omega
            simp only [C3Inv, if_pos h2]
            simp [c3State, hlen, initialWState]
            all_goals first
              | omega
              | (constructor
                 · congr 1
                   omega
                 · push_cast
                   omega)
          · have hx : ¬ (0 < 2 + p.length ∧ 0 + (m + 1 + 1) = 2 + p.length) := by
              omega
            simp [hx]
            all_goals omega
        · have hm2 : m = p.length := by omega
          subst hm2
          rw [bridgeTEST_eq _ _ _ (by rw [hlen]), List.take_length]
          constructor
          · simp only [C3Inv]
            split
            · exfalso
              omega
            · trivial
          · have hx : 0 < 2 + p.length ∧ 0 + (p.length + 1 + 1) = 2 + p.length := by
              omega
            simp [hx]
    · rcases k with _ | k
      · -- k = 1 : awaiting the second length byte
        have h1 : (1 : Nat) < 2 + p.length := by omega
        have hs : s = { waitingBuf := [l1], waitingRemain := 0, incompleteLen := true } := by
          simpa [C3Inv, c3State, h1] using hinv
        subst hs
        rcases m with _ | m
        · omega
        · have hmp : m ≤ p.length := by omega
          simp only [List.drop_succ_cons, List.drop_zero, List.take_succ_cons]
          rw [bridgeWrite_incompleteLen _ _ (by simp) rfl]
          simp only [List.headD_cons, List.drop_succ_cons, List.drop_zero]
          have hln : 256 * l1 + l2 = p.length := hp.symm
          rw [hln]
          have hlen : (p.take m).length = m := by simp [List.length_take]; omega
          rcases Nat.lt_or_ge m p.length with hcase | hcase
          · rw [bridgeTEST_lt _ _ _ (by rw [hlen]; exact hcase)]
            constructor
            · have h2 : 1 + (m + 1) < 2 + p.length := by omega
              simp only [C3Inv, if_pos h2]
              simp [c3State, hlen]
              all_goals first
                | omega
                | (constructor
                   · congr 1
                     omega
                   · push_cast
                     omega)
            · have hx : ¬ (1 < 2 + p.length ∧ 1 + (m + 1) = 2 + p.length) := by
                omega
              simp [hx]
              all_goals omega
          · have hm2 : m = p.length := by omega
            subst hm2
            rw [bridgeTEST_eq _ _ _ (by rw [hlen]), List.take_length]
            constructor
            · simp only [C3Inv]
              split
              · exfalso
                omega
              · trivial
            · have hx : 1 < 2 + p.length ∧ 1 + (p.length + 1) = 2 + p.length := by
                omega
              simp [hx]
      · -- k = k + 2 : awaiting payload bytes
        have hkp : k + m ≤ p.length := by omega
        have hkl : k < p.length := by omega
        have h2 : k + 2 < 2 + p.length := by omega
        have hs : s = { waitingBuf := p.take k,
                        waitingRemain := (p.length : Int) - (k : Int),
                        incompleteLen := false } := by
          have hne0 : ¬ (k + 2 = 0) := by omega
          have hne1 : ¬ (k + 2 = 1) := by omega
          have h := hinv
          simp only [C3Inv, if_pos h2, c3State, hne0, hne1, if_false] at h
          rw [h]
          simp only [WState.mk.injEq]
          refine ⟨by simp, ?_, by trivial⟩
          push_cast
          omega
        subst hs
        simp only [List.drop_succ_cons]
        have hc : ((p.drop k).take m).length = m := by
          simp [List.length_take, List.length_drop]
          omega
        have hcne : (p.drop k).take m ≠ [] := by
          have : 0 < ((p.drop k).take m).length := by omega
          exact List.length_pos.mp this
      -- the positive remain branch of Write
        rcases Nat.lt_or_ge (k + m) p.length with hcase | hcase
        · rw [bridgeWrite_remain_insufficient _ _ hcne rfl
            (by rw [hc]; push_cast; omega)]
          constructor
          · have h3 : k + 2 + m < 2 + p.length := by omega
            simp only [C3Inv, if_pos h3]
            have hne0 : ¬ (k + 2 + m = 0) := by omega
            have hne1 : ¬ (k + 2 + m = 1) := by omega
            simp only [c3State, hne0, hne1, if_false]
            simp only [WState.mk.injEq, hc]
            refine ⟨?_, by push_cast; omega, by trivial⟩
            rw [show k + 2 + m - 2 = k + m from by omega, List.take_add]
          · have hx : ¬ (k + 2 < 2 + p.length ∧ k + 2 + m = 2 + p.length) := by
              omega
            simp [hx]
            all_goals omega
        · have hm2 : k + m = p.length := by omega
          have hdrop : (p.drop k).take m = p.drop k := by
            apply List.take_all_of_le
            simp [List.length_drop]
            omega
          rw [hdrop]
          have hdne : p.drop k ≠ [] := by
            apply List.length_pos.mp
            simp [List.length_drop]
            omega
          rw [bridgeWrite_remain_exact _ _ hdne rfl
            (by simp [List.length_drop]; push_cast; omega) (by push_cast; omega)]
          constructor
          · simp only [C3Inv]
            split
            · exfalso
              omega
            · trivial
          · have hx : k + 2 < 2 + p.length ∧ k + 2 + m = 2 + p.length := by omega
            simp only [if_pos hx]
            rw [List.take_append_drop]

lemma c3_feed (l1 l2 : Nat) (p : List Nat) (hp : p.length = 256 * l1 + l2) :
    ∀ (ps : List (List Nat)) (k : Nat) (s : WState),
      C3Inv l1 p k s →
      ps.join = (l1 :: l2 :: p).drop k →
      (feedAll s ps).2 = (if k < 2 + p.length then [p] else []) := by
  intro ps
  induction ps with
  | nil =>
    intro k s hinv hjoin
    have hk : (l1 :: l2 :: p).length ≤ k := by
      rw [← List.drop_eq_nil_iff_le]
      exact hjoin.symm
    simp only [List.length_cons] at hk
    simp only [feedAll]
    rw [if_neg (by omega)]
  | cons c cs ih =>
    intro k s hinv hjoin
    have hjoinc : c ++ cs.join = (l1 :: l2 :: p).drop k := by
      simpa using hjoin
    rcases le_or_lt k (2 + p.length) with hkL | hkL
    · -- k within the wire: c is the next slice of it
      have hlen : c.length + cs.join.length = 2 + p.length - k := by
        have h := congrArg List.length hjoinc
        simp only [List.length_append, List.length_drop, List.length_cons] at h
        omega
      have hkm : k + c.length ≤ 2 + p.length := by omega
      have hc : ((l1 :: l2 :: p).drop k).take c.length = c := by
        rw [← hjoinc]
        exact List.take_left c cs.join
      have hjoin2 : cs.join = (l1 :: l2 :: p).drop (k + c.length) := by
        have h := congrArg (List.drop c.length) hjoinc
        rw [List.drop_left] at h
        rw [h, List.drop_drop]
      have hstep := c3_step l1 l2 p hp k c.length s hkm hinv
      rw [hc] at hstep
      have hrest := ih (k + c.length) (bridgeWrite s c).1 hstep.1 hjoin2
      simp only [feedAll]
      rw [hstep.2, hrest]
      by_cases hkLt : k < 2 + p.length
      · rcases Nat.lt_or_ge (k + c.length) (2 + p.length) with h | h
        · have h1 : ¬ (k < 2 + p.length ∧ k + c.length = 2 + p.length) := by omega
          rw [if_neg h1, if_pos h, if_pos hkLt]
          rfl
        · have he : k + c.length = 2 + p.length := by omega
          have h2 : ¬ (k + c.length < 2 + p.length) := by omega
          rw [if_pos (And.intro hkLt he), if_neg h2, if_pos hkLt]
          rfl
      · have h1 : ¬ (k < 2 + p.length ∧ k + c.length = 2 + p.length) := by
          intro hx
          exact hkLt hx.1
        have h2 : ¬ (k + c.length < 2 + p.length) := by omega
        rw [if_neg h1, if_neg h2, if_neg hkLt]
        rfl
    · -- k beyond the wire: every remaining chunk is empty
      have hnil : (l1 :: l2 :: p).drop k = [] := by
        apply List.drop_eq_nil_of_le
        simp only [List.length_cons]
        omega
      rw [hnil] at hjoinc
      rcases List.append_eq_nil.mp hjoinc with ⟨hc, hcs⟩
      subst hc
      simp only [feedAll, bridgeWrite_nil, List.nil_append]
      exact ih k s hinv (by rw [hcs, hnil])

/-- C3: splitting one frame's wire bytes (2-byte big-endian length prefix
l1 l2 followed by the payload p of that declared length) at any boundaries
whatever, 1-byte-at-a-time delivery included, and feeding the pieces
through successive Write calls from the idle state emits to the socket
exactly what a single Write of the whole frame emits (namely the one
payload p). -/
theorem write_split_invariance (l1 l2 : Nat) (p : List Nat)
    (hl1 : l1 < 256) (hl2 : l2 < 256) (hp : p.length = 256 * l1 + l2)
    (ps : List (List Nat)) (hjoin : ps.join = l1 :: l2 :: p) :
    (feedAll initialWState ps).2 = (bridgeWrite initialWState (l1 :: l2 :: p)).2 ∧
      (bridgeWrite initialWState (l1 :: l2 :: p)).2 = [p] := by
  have h0 : C3Inv l1 p 0 initialWState := by
    unfold C3Inv
    rw [if_pos (by omega)]
    rfl
  have hfeed := c3_feed l1 l2 p hp ps 0 initialWState h0 (by simpa using hjoin)
  have hsingle := c3_step l1 l2 p hp 0 (2 + p.length) initialWState (by omega) h0
  have hw : ((l1 :: l2 :: p).drop 0).take (2 + p.length) = l1 :: l2 :: p := by
    rw [List.drop_zero]
    apply List.take_of_length_le
    simp only [List.length_cons]
    omega
  rw [hw] at hsingle
  have hone : (bridgeWrite initialWState (l1 :: l2 :: p)).2 = [p] := by
    rw [hsingle.2, if_pos ⟨by omega, by omega⟩]
  refine ⟨?_, hone⟩
  rw [hone, hfeed, if_pos (by omega)]

/-- Witness for write_split_invariance: the frame 0x00 0x02 "hi" delivered
one byte at a time emits the same single payload as delivered whole. -/
theorem write_split_invariance_witness :
    (feedAll initialWState [[0], [2], [104], [105]]).2 =
      (bridgeWrite initialWState [0, 2, 104, 105]).2 ∧
      (bridgeWrite initialWState [0, 2, 104, 105]).2 = [[104, 105]] :=
  write_split_invariance 0 2 [104, 105] (by decide) (by decide) (by decide)
    [[0], [2], [104], [105]] (by decide)

lemma parseSize_ok (buf : List Nat) (sz : Nat) (h : parseSize buf = Except.ok sz) :
    7 ≤ sz ∧ ((buf.get? 3 = some socksAddrIPv4 ∧ sz = 10) ∨
      (buf.get? 3 = some socksAddrIPv6 ∧ sz = 22) ∨
      (∃ v, buf.get? 3 = some socksAddrDomain ∧ buf.get? 4 = some v ∧ sz = 7 + v)) := by
  unfold parseSize idx at h
  rcases h3 : buf.get? 3 with _ | b3 <;> rw [h3] at h
  · simp at h
  · simp only at h
    by_cases e1 : b3 = socksAddrIPv4
    · rw [if_pos e1] at h
      simp only [Except.ok.injEq] at h
      subst e1
      refine ⟨by omega, Or.inl ⟨rfl, by omega⟩⟩
    · rw [if_neg e1] at h
      by_cases e2 : b3 = socksAddrIPv6
      · rw [if_pos e2] at h
        simp only [Except.ok.injEq] at h
        subst e2
        refine ⟨by omega, Or.inr (Or.inl ⟨rfl, by omega⟩)⟩
      · rw [if_neg e2] at h
        by_cases e3 : b3 = socksAddrDomain
        · rw [if_pos e3] at h
          rcases h4 : buf.get? 4 with _ | b4 <;> rw [h4] at h
          · simp at h
          · simp only [Except.ok.injEq] at h
            subst e3
            exact ⟨by omega, Or.inr (Or.inr ⟨b4, rfl, rfl, by omega⟩)⟩
        · rw [if_neg e3] at h
          simp at h

lemma parseSize_badAddrType (buf : List Nat) (t : Nat) (h3 : buf.get? 3 = some t)
    (h1 : t ≠ socksAddrIPv4) (h2 : t ≠ socksAddrIPv6) (h4 : t ≠ socksAddrDomain) :
    parseSize buf = Except.error (PErr.badAddrType t) := by
  unfold parseSize idx
  rw [h3]
  simp [h1, h2, h4]

lemma parseChecks_ok (buf : List Nat) (b1 : Nat)
    (h0 : buf.get? 0 = some socksVersion5)
    (h1 : buf.get? 1 = some b1) (hm : b1 = 1 ∨ b1 = 3) :
    parseChecks buf = Except.ok () := by
  unfold parseChecks idx
  rw [h0, h1]
  rcases hm with hm | hm <;> simp [hm, socksVersion5]

lemma parse_ok_inv (buf : List Nat) (oc : Bool) (m : Nat) (a : UAddr)
    (h : parseUDPHeaderBuf buf oc = Except.ok (m, a)) :
    parseSize buf = Except.ok a.size ∧ a.size ≤ buf.length := by
  unfold parseUDPHeaderBuf at h
  split at h
  · exact absurd h (by simp)
  · split at h
    · exact absurd h (by simp)
    · rename_i size hsz
      split at h
      · exact absurd h (by simp)
      · rename_i hlt
        split at h
        · exact absurd h (by simp)
        · dsimp only at h
          split at h <;>
          · simp only [Except.ok.injEq, Prod.mk.injEq] at h
            rw [← h.2]
            exact ⟨hsz, by show size ≤ buf.length; omega⟩

lemma parseChecks_no_eof (buf : List Nat)
    (h : parseChecks buf = Except.error PErr.eof) : False := by
  unfold parseChecks idx at h
  rcases hg0 : buf.get? 0 with _ | b0 <;> rw [hg0] at h
  · simp at h
  · simp only at h
    by_cases hv : b0 ≠ socksVersion5
    · rw [if_pos hv] at h
      simp at h
    · rw [if_neg hv] at h
      rcases hg1 : buf.get? 1 with _ | b1 <;> rw [hg1] at h
      · simp at h
      · simp only at h
        by_cases hb : b1 ≠ 1 ∧ b1 ≠ 3
        · rw [if_pos hb] at h
          simp at h
        · rw [if_neg hb] at h
          simp at h

lemma parseSize_no_eof (buf : List Nat)
    (h : parseSize buf = Except.error PErr.eof) : False := by
  unfold parseSize idx at h
  rcases hg3 : buf.get? 3 with _ | b3 <;> rw [hg3] at h
  · simp at h
  · simp only at h
    by_cases e1 : b3 = socksAddrIPv4
    · rw [if_pos e1] at h
      simp at h
    · rw [if_neg e1] at h
      by_cases e2 : b3 = socksAddrIPv6
      · rw [if_pos e2] at h
        simp at h
      · rw [if_neg e2] at h
        by_cases e3 : b3 = socksAddrDomain
        · rw [if_pos e3] at h
          rcases hg4 : buf.get? 4 with _ | b4 <;> rw [hg4] at h
          · simp at h
          · simp at h
        · rw [if_neg e3] at h
          simp at h

lemma parse_eof_inv (buf : List Nat) (oc : Bool)
    (h : parseUDPHeaderBuf buf oc = Except.error PErr.eof) :
    ∃ sz, parseSize buf = Except.ok sz ∧ buf.length < sz := by
  unfold parseUDPHeaderBuf at h
  split at h
  · rename_i e hif
    simp only [Except.error.injEq] at h
    subst h
    split at hif
    · exact absurd hif (by simp)
    · exact absurd hif (fun hx => parseChecks_no_eof buf hx)
  · split at h
    · rename_i e hsz
      simp only [Except.error.injEq] at h
      subst h
      exact absurd hsz (fun hx => parseSize_no_eof buf hx)
    · rename_i sz hsz
      split at h
      · rename_i hlt
        exact ⟨sz, hsz, hlt⟩
      · split at h
        · rename_i e hidx
          simp only [Except.error.injEq] at h
          subst h
          unfold idx at hidx
          rcases hg1 : buf.get? 1 with _ | v <;> rw [hg1] at hidx <;> simp at hidx
        · dsimp only at h
          split at h <;> simp at h

lemma checks_pass (buf : List Nat) (oc : Bool)
    (hchecks : oc = true ∨ parseChecks buf = Except.ok ()) :
    (if oc = true then Except.ok () else parseChecks buf) = Except.ok () := by
  cases oc
  · rcases hchecks with hoc | hok
    · exact absurd hoc (by simp)
    · simpa using hok
  · simp

/-- C1 (amended): whenever parseUDPHeader succeeds, the address-type byte at
offset 3 determines the recorded header size — IPv4 gives 10, IPv6 gives 22,
domain gives 5 + (length byte at offset 4) + 2 — and, when the version and
command bytes are valid (or the check is skipped), any other address-type
byte makes the parse fail with a protocol error carrying that byte, so no
address is returned. -/
theorem parse_size_by_addr_type :
    (∀ (buf : List Nat) (oc : Bool) (m : Nat) (a : UAddr),
        parseUDPHeaderBuf buf oc = Except.ok (m, a) →
        ((buf.get? 3 = some socksAddrIPv4 ∧ a.size = 10) ∨
          (buf.get? 3 = some socksAddrIPv6 ∧ a.size = 22) ∨
          (∃ v, buf.get? 3 = some socksAddrDomain ∧ buf.get? 4 = some v ∧
            a.size = 5 + v + 2))) ∧
    (∀ (buf : List Nat) (oc : Bool) (t : Nat),
        buf.get? 3 = some t → t ≠ socksAddrIPv4 → t ≠ socksAddrIPv6 →
        t ≠ socksAddrDomain →
        (oc = true ∨ (buf.get? 0 = some socksVersion5 ∧
          (buf.get? 1 = some 1 ∨ buf.get? 1 = some 3))) →
        parseUDPHeaderBuf buf oc = Except.error (PErr.badAddrType t)) := by
  constructor
  · intro buf oc m a h
    have h1 := parse_ok_inv buf oc m a h
    have h2 := parseSize_ok buf a.size h1.1
    rcases h2.2 with ⟨hh, hs⟩ | ⟨hh, hs⟩ | ⟨v, hh, hv, hs⟩
    · exact Or.inl ⟨hh, hs⟩
    · exact Or.inr (Or.inl ⟨hh, hs⟩)
    · exact Or.inr (Or.inr ⟨v, hh, hv, by omega⟩)
  · intro buf oc t h3 ht1 ht2 ht3 hchecks
    have hsz := parseSize_badAddrType buf t h3 ht1 ht2 ht3
    have hcheck : (if oc = true then Except.ok () else parseChecks buf) =
        Except.ok () := by
      apply checks_pass
      rcases hchecks with hoc | ⟨h0, hm⟩
      · exact Or.inl hoc
      · rcases hm with hm | hm
        · exact Or.inr (parseChecks_ok buf 1 h0 hm (Or.inl rfl))
        · exact Or.inr (parseChecks_ok buf 3 h0 hm (Or.inr rfl))
    unfold parseUDPHeaderBuf
    simp only [hcheck, hsz]

/-- Witness for parse_size_by_addr_type: an IPv4 header parses with size 10,
and address type 9 is rejected with the protocol error. -/
theorem parse_size_by_addr_type_witness :
    (([5, 1, 0, 1, 1, 2, 3, 4, 0, 53] : List Nat).get? 3 = some socksAddrIPv4 ∧
        ({ ip := some [1, 2, 3, 4], host := [], port := 53, size := 10 } : UAddr).size
          = 10) ∨
      (([5, 1, 0, 1, 1, 2, 3, 4, 0, 53] : List Nat).get? 3 = some socksAddrIPv6 ∧
        ({ ip := some [1, 2, 3, 4], host := [], port := 53, size := 10 } : UAddr).size
          = 22) ∨
      (∃ v, ([5, 1, 0, 1, 1, 2, 3, 4, 0, 53] : List Nat).get? 3 = some socksAddrDomain ∧
        ([5, 1, 0, 1, 1, 2, 3, 4, 0, 53] : List Nat).get? 4 = some v ∧
        ({ ip := some [1, 2, 3, 4], host := [], port := 53, size := 10 } : UAddr).size
          = 5 + v + 2) :=
  parse_size_by_addr_type.1 [5, 1, 0, 1, 1, 2, 3, 4, 0, 53] false 1
    { ip := some [1, 2, 3, 4], host := [], port := 53, size := 10 } rfl

/-- C1 counterexample: the concrete IPv4 header 05 01 00 01 01 02 03 04 00 35
parses successfully with recorded header size 10, not the claimed 9. -/
theorem parse_ipv4_size_ten_not_nine :
    parseUDPHeaderBuf [5, 1, 0, 1, 1, 2, 3, 4, 0, 53] false =
      Except.ok (1, { ip := some [1, 2, 3, 4], host := [], port := 53, size := 10 }) ∧
    ¬ (∃ m a, parseUDPHeaderBuf [5, 1, 0, 1, 1, 2, 3, 4, 0, 53] false =
        Except.ok (m, a) ∧ a.size = 9) := by
  refine ⟨rfl, ?_⟩
  rintro ⟨m, a, hp, hs⟩
  rw [show parseUDPHeaderBuf [5, 1, 0, 1, 1, 2, 3, 4, 0, 53] false =
    Except.ok (1, { ip := some [1, 2, 3, 4], host := [], port := 53, size := 10 })
    from rfl] at hp
  simp only [Except.ok.injEq, Prod.mk.injEq] at hp
  rw [← hp.2] at hs
  exact absurd hs (by decide)

/-- C9 (amended): without a live connection, when the buffer is long enough
for the size computation itself to complete (parseSize succeeds) and the
version/command checks pass or are skipped, a buffer shorter than the
computed header size fails with the io.EOF short-buffer error and returns no
address, while a buffer at least that long never produces that error. -/
theorem parse_short_buffer_eof (buf : List Nat) (oc : Bool) (sz : Nat)
    (hsz : parseSize buf = Except.ok sz)
    (hchecks : oc = true ∨ parseChecks buf = Except.ok ()) :
    (buf.length < sz → parseUDPHeaderBuf buf oc = Except.error PErr.eof) ∧
    (sz ≤ buf.length → parseUDPHeaderBuf buf oc ≠ Except.error PErr.eof) := by
  constructor
  · intro hlt
    have hcheck := checks_pass buf oc hchecks
    unfold parseUDPHeaderBuf
    simp only [hcheck, hsz]
    rw [if_pos hlt]
  · intro hge hcontra
    rcases parse_eof_inv buf oc hcontra with ⟨sz2, hsz2, hlt2⟩
    rw [hsz] at hsz2
    simp only [Except.ok.injEq] at hsz2
    omega

/-- Witness for parse_short_buffer_eof: a 6-byte IPv4-typed buffer is short
of the 10-byte header and yields io.EOF; the full 10-byte header does not. -/
theorem parse_short_buffer_eof_witness :
    parseUDPHeaderBuf [5, 1, 0, 1, 1, 2] false = Except.error PErr.eof ∧
    parseUDPHeaderBuf [5, 1, 0, 1, 1, 2, 3, 4, 0, 53] false ≠
      Except.error PErr.eof :=
  ⟨(parse_short_buffer_eof [5, 1, 0, 1, 1, 2] false 10 rfl (Or.inr rfl)).1
      (by decide),
   (parse_short_buffer_eof [5, 1, 0, 1, 1, 2, 3, 4, 0, 53] false 10 rfl
      (Or.inr rfl)).2 (by decide)⟩

/-- C9 counterexample: with conn nil, the 4-byte buffer 05 01 00 03 carries
the domain address type but no length byte, so it is shorter than any domain
header; the code aborts with an out-of-range index panic at buf[4] instead of
failing with the io.EOF short-buffer error. -/
theorem parse_short_domain_panic :
    parseUDPHeaderBuf [5, 1, 0, 3] false = Except.error PErr.panicOOB ∧
    parseUDPHeaderBuf [5, 1, 0, 3] false ≠ Except.error PErr.eof := by
  refine ⟨rfl, ?_⟩
  rw [show parseUDPHeaderBuf [5, 1, 0, 3] false = Except.error PErr.panicOOB
    from rfl]
  simp

lemma roundtrip_domain (host : List Nat) (port : Nat) (hne : host ≠ [])
    (hport : port < 65536) :
    parseUDPHeaderBuf (0 :: 0 :: 0 :: 3 :: host.length ::
        (host ++ [port / 256, port % 256])) true =
      Except.ok (0, { ip := none, host := host, port := port,
                      size := 7 + host.length }) := by
  set buf : List Nat := 0 :: 0 :: 0 :: 3 :: host.length ::
    (host ++ [port / 256, port % 256]) with hbuf
  have hbufA : buf = (0 :: 0 :: 0 :: 3 :: host.length :: host) ++
      [port / 256, port % 256] := by
    rw [hbuf]
    simp
  have hg1 : buf.get? 1 = some 0 := rfl
  have hg3 : buf.get? 3 = some 3 := rfl
  have hg4 : buf.get? 4 = some host.length := rfl
  have hlen : buf.length = 7 + host.length := by
    rw [hbuf]
    simp
    omega
  have hsz : parseSize buf = Except.ok (3 + 1 + 1 + host.length + 2) := by
    unfold parseSize idx
    rw [hg3, hg4]
    norm_num [socksAddrIPv4, socksAddrIPv6, socksAddrDomain]
  have hAlen : (0 :: 0 :: 0 :: 3 :: host.length :: host).length = 5 + host.length := by
    simp
    omega
  have htake : buf.take (3 + 1 + 1 + host.length + 2 - 2) =
      0 :: 0 :: 0 :: 3 :: host.length :: host := by
    rw [hbufA, show 3 + 1 + 1 + host.length + 2 - 2 = 5 + host.length from by omega,
      List.take_left' hAlen]
  have hraw : ((buf.take (3 + 1 + 1 + host.length + 2 - 2)).drop 3).drop 2 = host := by
    rw [htake]
    rfl
  have hgp1 : buf.getD (3 + 1 + 1 + host.length + 2 - 2) 0 = port / 256 := by
    have h : buf.get? (5 + host.length) = some (port / 256) := by
      have h5 : buf.drop 5 = host ++ [port / 256, port % 256] := rfl
      rw [← List.get?_drop buf 5 host.length, h5,
        List.get?_append_right (by omega)]
      simp
    rw [show 3 + 1 + 1 + host.length + 2 - 2 = 5 + host.length from by omega]
    simp [List.getD_eq_getElem?_getD, ← List.get?_eq_getElem?, h]
  have hgp2 : buf.getD (3 + 1 + 1 + host.length + 2 - 1) 0 = port % 256 := by
    have h : buf.get? (5 + (host.length + 1)) = some (port % 256) := by
      have h5 : buf.drop 5 = host ++ [port / 256, port % 256] := rfl
      rw [← List.get?_drop buf 5 (host.length + 1), h5,
        List.get?_append_right (by omega)]
      simp
    rw [show 3 + 1 + 1 + host.length + 2 - 1 = 5 + (host.length + 1) from by omega]
    simp [List.getD_eq_getElem?_getD, ← List.get?_eq_getElem?, h]
  have hgd3 : buf.getD 3 0 = 3 := rfl
  unfold parseUDPHeaderBuf
  rw [checks_pass buf true (Or.inl rfl)]
  dsimp only []
  rw [hsz]
  dsimp only []
  rw [hlen, if_neg (by omega)]
  rw [show idx buf 1 = Except.ok 0 from by unfold idx; rw [hg1]]
  dsimp only []
  rw [hgd3, if_neg (by decide), hraw, hgp1, hgp2]
  rw [show 256 * (port / 256) + port % 256 = port from by omega,
    show 3 + 1 + 1 + host.length + 2 = 7 + host.length from by omega]

lemma roundtrip_ipv4 (a1 a2 a3 a4 : Nat) (port : Nat) (hport : port < 65536) :
    parseUDPHeaderBuf [0, 0, 0, 1, a1, a2, a3, a4, port / 256, port % 256] true =
      Except.ok (0, { ip := some [a1, a2, a3, a4], host := [], port := port,
                      size := 10 }) := by
  rw [show parseUDPHeaderBuf [0, 0, 0, 1, a1, a2, a3, a4, port / 256, port % 256] true =
    Except.ok (0, { ip := some [a1, a2, a3, a4], host := [],
                    port := 256 * (port / 256) + port % 256, size := 10 }) from rfl]
  rw [show 256 * (port / 256) + port % 256 = port from by omega]

lemma roundtrip_ipv6 (a1 a2 a3 a4 a5 a6 a7 a8 a9 a10 a11 a12 a13 a14 a15 a16 : Nat)
    (port : Nat) (hport : port < 65536) :
    parseUDPHeaderBuf [0, 0, 0, 4, a1, a2, a3, a4, a5, a6, a7, a8, a9, a10, a11,
        a12, a13, a14, a15, a16, port / 256, port % 256] true =
      Except.ok (0, { ip := some [a1, a2, a3, a4, a5, a6, a7, a8, a9, a10, a11,
                        a12, a13, a14, a15, a16],
                      host := [], port := port, size := 22 }) := by
  rw [show parseUDPHeaderBuf [0, 0, 0, 4, a1, a2, a3, a4, a5, a6, a7, a8, a9, a10,
      a11, a12, a13, a14, a15, a16, port / 256, port % 256] true =
    Except.ok (0, { ip := some [a1, a2, a3, a4, a5, a6, a7, a8, a9, a10, a11, a12,
                      a13, a14, a15, a16],
                    host := [],
                    port := 256 * (port / 256) + port % 256, size := 22 }) from rfl]
  rw [show 256 * (port / 256) + port % 256 = port from by omega]

/-- C5: for each address family the SOCKS5 UDP header that
udpBridgeConn.write builds for a destination, parsed back with the version
check skipped, reconstructs the destination exactly: same ip, same host,
same port, and recorded size equal to the destination's size. -/
theorem serialize_parse_roundtrip (a : UAddr) (hport : a.port < 65536)
    (hcase :
      (a.ip = none ∧ a.host ≠ [] ∧ a.host.length ≤ 255 ∧
        a.size = 7 + a.host.length) ∨
      (∃ i, a.ip = some i ∧ i.length = 4 ∧ a.host = [] ∧ a.size = 10) ∨
      (∃ i, a.ip = some i ∧ i.length = 16 ∧ a.host = [] ∧ a.size = 22)) :
    parseUDPHeaderBuf (serializeUDPHeader a) true = Except.ok (0, a) := by
  obtain ⟨ip, host, port, size⟩ := a
  simp only at hport hcase ⊢
  rcases hcase with ⟨hip, hne, hlenh, hsz⟩ | ⟨i, hip, hilen, hh, hsz⟩ |
    ⟨i, hip, hilen, hh, hsz⟩
  · subst hip
    subst hsz
    have hser : serializeUDPHeader
        { ip := none, host := host, port := port, size := 7 + host.length } =
        0 :: 0 :: 0 :: 3 :: host.length :: (host ++ [port / 256, port % 256]) := by
      simp only [serializeUDPHeader, be16, socksAddrDomain]
      rw [if_pos hne]
      rw [Nat.mod_eq_of_lt (show host.length < 256 from by omega),
        Nat.mod_eq_of_lt hport,
        Nat.mod_eq_of_lt (show port / 256 < 256 from by omega)]
      simp
    rw [hser]
    exact roundtrip_domain host port hne hport
  · subst hip
    subst hh
    subst hsz
    rcases i with _ | ⟨b1, i⟩
    · simp at hilen
    rcases i with _ | ⟨b2, i⟩
    · simp at hilen
    rcases i with _ | ⟨b3, i⟩
    · simp at hilen
    rcases i with _ | ⟨b4, i⟩
    · simp at hilen
    rcases i with _ | ⟨b5, i⟩
    swap
    · simp at hilen
    have hser : serializeUDPHeader
        { ip := some [b1, b2, b3, b4], host := [], port := port, size := 10 } =
        [0, 0, 0, 1, b1, b2, b3, b4, port / 256, port % 256] := by
      simp only [serializeUDPHeader, be16, socksAddrIPv4]
      rw [Nat.mod_eq_of_lt hport,
        Nat.mod_eq_of_lt (show port / 256 < 256 from by omega)]
      simp
    rw [hser]
    exact roundtrip_ipv4 b1 b2 b3 b4 port hport
  · subst hip
    subst hh
    subst hsz
    rcases i with _ | ⟨b1, i⟩
    · simp at hilen
    rcases i with _ | ⟨b2, i⟩
    · simp at hilen
    rcases i with _ | ⟨b3, i⟩
    · simp at hilen
    rcases i with _ | ⟨b4, i⟩
    · simp at hilen
    rcases i with _ | ⟨b5, i⟩
    · simp at hilen
    rcases i with _ | ⟨b6, i⟩
    · simp at hilen
    rcases i with _ | ⟨b7, i⟩
    · simp at hilen
    rcases i with _ | ⟨b8, i⟩
    · simp at hilen
    rcases i with _ | ⟨b9, i⟩
    · simp at hilen
    rcases i with _ | ⟨b10, i⟩
    · simp at hilen
    rcases i with _ | ⟨b11, i⟩
    · simp at hilen
    rcases i with _ | ⟨b12, i⟩
    · simp at hilen
    rcases i with _ | ⟨b13, i⟩
    · simp at hilen
    rcases i with _ | ⟨b14, i⟩
    · simp at hilen
    rcases i with _ | ⟨b15, i⟩
    · simp at hilen
    rcases i with _ | ⟨b16, i⟩
    · simp at hilen
    rcases i with _ | ⟨b17, i⟩
    swap
    · simp at hilen
    have hser : serializeUDPHeader
        { ip := some [b1, b2, b3, b4, b5, b6, b7, b8, b9, b10, b11, b12, b13,
            b14, b15, b16],
          host := [], port := port, size := 22 } =
        [0, 0, 0, 4, b1, b2, b3, b4, b5, b6, b7, b8, b9, b10, b11, b12, b13,
          b14, b15, b16, port / 256, port % 256] := by
      simp only [serializeUDPHeader, be16, socksAddrIPv6]
      rw [Nat.mod_eq_of_lt hport,
        Nat.mod_eq_of_lt (show port / 256 < 256 from by omega)]
      simp
    rw [hser]
    exact roundtrip_ipv6 b1 b2 b3 b4 b5 b6 b7 b8 b9 b10 b11 b12 b13 b14 b15 b16
      port hport

/-- Witness for serialize_parse_roundtrip: the domain destination "ab":80
serializes and parses back to itself. -/
theorem serialize_parse_roundtrip_witness :
    parseUDPHeaderBuf (serializeUDPHeader
        { ip := none, host := [97, 98], port := 80, size := 9 }) true =
      Except.ok (0, { ip := none, host := [97, 98], port := 80, size := 9 }) :=
  serialize_parse_roundtrip
    { ip := none, host := [97, 98], port := 80, size := 9 }
    (by decide) (Or.inl (by decide))

lemma bridgeWriteCount_full (s : WState) (b : List Nat)
    (hn : ¬ (s.incompleteLen = false ∧ 0 < s.waitingRemain ∧
      s.waitingRemain < (b.length : Int))) :
    bridgeWriteCount s b = b.length := by
  unfold bridgeWriteCount
  by_cases hb : b = []
  · rw [if_pos hb]
  · rw [if_neg hb]
    by_cases hI : s.incompleteLen = true
    · rw [if_pos hI]
    · rw [if_neg hI]
      by_cases hR : 0 < s.waitingRemain
      · rw [if_pos hR]
        have hge : (b.length : Int) ≤ s.waitingRemain := by
          by_contra hx
          exact hn ⟨by simpa using hI, hR, by omega⟩
        by_cases he : (s.waitingRemain - b.length : Int) = 0
        · rw [if_pos he]
        · rw [if_neg he, if_pos (by omega)]
      · rw [if_neg hR]

lemma bridgeWriteCount_surplus (s : WState) (b : List Nat)
    (hI : s.incompleteLen = false) (hR : 0 < s.waitingRemain)
    (hlt : s.waitingRemain < (b.length : Int)) :
    bridgeWriteCount s b = b.length - s.waitingRemain.toNat := by
  have hb : b ≠ [] := by
    intro hx
    rw [hx] at hlt
    simp at hlt
    omega
  unfold bridgeWriteCount
  rw [if_neg hb, if_neg (by simp [hI]), if_pos hR, if_neg (by omega),
    if_neg (by omega)]
  simp [List.length_drop]

/-- C2 counterexample: from a fresh connection Write [0,2,7] succeeds and
leaves one payload byte outstanding (waitingBuf 07, remain 1); the next
Write [8,0] over-fills that remainder, succeeds — emitting the completed
frame 07 08 — yet reports 1, not the chunk length 2, because the deferred
n = len(b) observes the reassignment b = b[remain:] at line 275. -/
theorem write_short_accept_on_surplus :
    (bridgeWrite initialWState [0, 2, 7]).1 =
      { waitingBuf := [7], waitingRemain := 1, incompleteLen := false } ∧
    (bridgeWrite { waitingBuf := [7], waitingRemain := 1, incompleteLen := false }
      [8, 0]).2 = [[7, 8]] ∧
    bridgeWriteCount
      { waitingBuf := [7], waitingRemain := 1, incompleteLen := false } [8, 0] = 1 ∧
    (1 : Nat) ≠ 2 := by
  refine ⟨?_, ?_, by decide, by decide⟩
  · simp [bridgeWrite, bridgeCont, bridgeTEST, initialWState]
  · simp [bridgeWrite, bridgeCont, bridgeTEST]

/-- C2 (amended): on success udpBridgeConn.Write reports the length of the
chunk originally passed in — however many frames the chunk completes or
leaves pending — unless the chunk strictly over-fills a pending payload
remainder: on that surplus path line 275 reassigns b = b[remain:], so the
deferred n = len(b) at lines 230-237 reports only the trailing bytes'
length, the chunk length minus the outstanding remainder (a short
accept). -/
theorem write_reported_count (s : WState) (b : List Nat) (hb : b ≠ []) :
    (¬ (s.incompleteLen = false ∧ 0 < s.waitingRemain ∧
        s.waitingRemain < (b.length : Int)) →
      bridgeWriteCount s b = b.length) ∧
    (s.incompleteLen = false → 0 < s.waitingRemain →
      s.waitingRemain < (b.length : Int) →
      bridgeWriteCount s b = b.length - s.waitingRemain.toNat) :=
  ⟨fun hn => bridgeWriteCount_full s b hn,
   fun hI hR hlt => bridgeWriteCount_surplus s b hI hR hlt⟩

/-- Witness for write_reported_count: a fresh-state Write reports the full
3 bytes; the surplus Write of the counterexample reports 2 - 1. -/
theorem write_reported_count_witness :
    bridgeWriteCount initialWState [0, 2, 7] = 3 ∧
    bridgeWriteCount { waitingBuf := [7], waitingRemain := 1,
                       incompleteLen := false } [8, 0] = 2 - (1 : Int).toNat :=
  ⟨(write_reported_count initialWState [0, 2, 7] (by decide)).1 (by decide),
   (write_reported_count { waitingBuf := [7], waitingRemain := 1,
                           incompleteLen := false } [8, 0]
      (by decide)).2 rfl (by decide) (by decide)⟩

/-- C4 counterexample: the chunk 00 01 07 00 is one complete frame (declared
length 1, payload 07) followed by the 1-byte proper prefix 00 of a second
frame; Write from the idle state emits exactly one frame but leaves the
writer awaiting the second length byte (incompleteLen set), not in the
AwaitingPayload state. -/
theorem write_surplus_one_byte_prefix :
    bridgeWrite initialWState [0, 1, 7, 0] =
      ({ waitingBuf := [0], waitingRemain := 0, incompleteLen := true }, [[7]]) ∧
    (bridgeWrite initialWState [0, 1, 7, 0]).1.incompleteLen = true ∧
    ¬ 0 < (bridgeWrite initialWState [0, 1, 7, 0]).1.waitingRemain := by
  have h : bridgeWrite initialWState [0, 1, 7, 0] =
      ({ waitingBuf := [0], waitingRemain := 0, incompleteLen := true }, [[7]]) := by
    simp [bridgeWrite, bridgeCont, bridgeTEST, initialWState]
  refine ⟨h, ?_, ?_⟩
  · rw [h]
  · rw [h]
    decide

/-- C4 (amended): a chunk of one complete frame followed by a prefix of a
second frame that contains the full 2-byte length (and misses at least one
payload byte) emits exactly the first frame's payload and leaves the writer
in AwaitingPayload with the outstanding count equal to the second frame's
declared length minus the second-frame payload bytes already received. -/
theorem write_one_frame_and_partial_second (h1 h2 : Nat) (p1 : List Nat)
    (g1 g2 : Nat) (q : List Nat)
    (hp1 : p1.length = 256 * h1 + h2)
    (hq : q.length < 256 * g1 + g2) :
    bridgeWrite initialWState (h1 :: h2 :: (p1 ++ g1 :: g2 :: q)) =
      ({ waitingBuf := q,
         waitingRemain := ((256 * g1 + g2 : Nat) : Int) - q.length,
         incompleteLen := false }, [p1]) := by
  rw [bridgeWrite_fresh _ _ rfl (by simp [initialWState]),
    bridgeCont_parse _ _ (by simp)]
  simp only [List.headD_cons, List.drop_succ_cons, List.drop_zero]
  rw [bridgeTEST_gt _ _ _ (by simp; omega)]
  rw [show (p1 ++ g1 :: g2 :: q).take (256 * h1 + h2) = p1 from by
    rw [← hp1]
    exact List.take_left p1 _]
  rw [show (p1 ++ g1 :: g2 :: q).drop (256 * h1 + h2) = g1 :: g2 :: q from by
    rw [← hp1]
    exact List.drop_left p1 _]
  rw [bridgeWrite_fresh _ _ rfl (by simp [initialWState]),
    bridgeCont_parse _ _ (by simp)]
  simp only [List.headD_cons, List.drop_succ_cons, List.drop_zero]
  rw [bridgeTEST_lt _ _ _ hq]
  rfl

/-- Witness for write_one_frame_and_partial_second: frame 00 01 09 followed
by the second-frame prefix 00 02 05 leaves one outstanding byte. -/
theorem write_one_frame_and_partial_second_witness :
    bridgeWrite initialWState [0, 1, 9, 0, 2, 5] =
      ({ waitingBuf := [5], waitingRemain := ((256 * 0 + 2 : Nat) : Int) - 1,
         incompleteLen := false }, [[9]]) :=
  write_one_frame_and_partial_second 0 1 [9] 0 2 [5] (by decide) (by decide)

/-- C10 counterexample: with no learned peer the emitted frame 07 08 is
silently dropped — write sends nothing and returns 0 with err nil — but the
enclosing Write is the surplus call Write [8,0] from the reachable state
Write [0,2,7] leaves behind, and it reports 1, not the full chunk length
2. -/
theorem write_drop_short_accept_on_surplus :
    bridgeSend true false { ip := some [1, 2, 3, 4], port := 53, size := 10 }
      [7, 8] = (none, 0) ∧
    (bridgeWrite initialWState [0, 2, 7]).1 =
      { waitingBuf := [7], waitingRemain := 1, incompleteLen := false } ∧
    (bridgeWrite { waitingBuf := [7], waitingRemain := 1, incompleteLen := false }
      [8, 0]).2 = [[7, 8]] ∧
    bridgeWriteCount { waitingBuf := [7], waitingRemain := 1,
                       incompleteLen := false } [8, 0] ≠ 2 := by
  refine ⟨rfl, ?_, ?_, by decide⟩
  · simp [bridgeWrite, bridgeCont, bridgeTEST, initialWState]
  · simp [bridgeWrite, bridgeCont, bridgeTEST]

/-- C10 (amended): in SOCKS mode before any peer address is learned the
datagram is silently dropped — write sends no bytes to the socket and
returns (0, nil) — and the enclosing Write consequently still returns
without error, reporting the full chunk length whenever the chunk does not
strictly over-fill a pending payload remainder (on that surplus path it
reports only the trailing bytes' length, as every successful Write there
does, the deferred n = len(b) observing line 275's reassignment). -/
theorem write_before_peer_drops (dst : UAddr) (b : List Nat) (s : WState)
    (chunk : List Nat) (hc : chunk ≠ [])
    (hns : ¬ (s.incompleteLen = false ∧ 0 < s.waitingRemain ∧
      s.waitingRemain < (chunk.length : Int))) :
    bridgeSend true false dst b = (none, 0) ∧
    bridgeWriteCount s chunk = chunk.length :=
  ⟨rfl, bridgeWriteCount_full s chunk hns⟩

/-- Witness for write_before_peer_drops at concrete inputs. -/
theorem write_before_peer_drops_witness :
    bridgeSend true false { ip := some [1, 2, 3, 4], port := 53, size := 10 }
      [80, 73, 78, 71] = (none, 0) ∧
    bridgeWriteCount initialWState [0, 4, 80, 73, 78, 71] = 6 :=
  write_before_peer_drops { ip := some [1, 2, 3, 4], port := 53, size := 10 }
    [80, 73, 78, 71] initialWState [0, 4, 80, 73, 78, 71] (by decide) (by decide)

lemma foldl_count_replicate_true (m : Nat) : ∀ acc : Nat,
    (List.replicate m true).foldl (fun c s => if s then c + 1 else c) acc =
      acc + m := by
  induction m with
  | zero =>
    intro acc
    simp
  | succ k ih =>
    intro acc
    rw [List.replicate_succ, List.foldl_cons, if_pos rfl, ih]
    omega

/-- C8: with fan-out N of at least 1 and every upstream dial failing
immediately, every pool member counts as closed, so the polling supervision
loop's break condition is met at its first check and handleUDPtoTCP
terminates instead of blocking indefinitely. -/
theorem pool_terminates_all_dials_failed (n : Nat) (hn : 1 ≤ n) :
    countClosedSrcs (List.replicate n dialFailedMemberClosed) = n ∧
    superviseLoopBreaks (List.replicate n dialFailedMemberClosed) = true := by
  have hc : countClosedSrcs (List.replicate n dialFailedMemberClosed) = n := by
    unfold countClosedSrcs dialFailedMemberClosed
    rw [foldl_count_replicate_true]
    omega
  refine ⟨hc, ?_⟩
  unfold superviseLoopBreaks
  rw [hc]
  simp [List.length_replicate]

/-- Witness for pool_terminates_all_dials_failed at fan-out 8. -/
theorem pool_terminates_all_dials_failed_witness :
    countClosedSrcs (List.replicate 8 dialFailedMemberClosed) = 8 ∧
    superviseLoopBreaks (List.replicate 8 dialFailedMemberClosed) = true :=
  pool_terminates_all_dials_failed 8 (by decide)

/-- C6: Read aborts with the buffer-size panic exactly when the caller's
buffer is below the fixed 2050-byte threshold, and that abort happens
before any socket read or seed consumption: the outcome is independent of
the datagram and the seed buffer is left untouched.  At or above the
threshold the size panic never occurs. -/
theorem read_undersized_buffer_panics (blen : Nat) (initBuf : Option (List Nat))
    (socks : Bool) (datagram : List Nat) :
    ((bridgeRead blen initBuf socks datagram).1 = Except.error RdErr.panicSize ↔
      blen < expectedMaxPacketSize) ∧
    (blen < expectedMaxPacketSize →
      (bridgeRead blen initBuf socks datagram).2 = initBuf) := by
  by_cases h : blen < expectedMaxPacketSize
  · unfold bridgeRead
    rw [if_pos h]
    exact ⟨by simp [h], fun _ => rfl⟩
  · unfold bridgeRead
    rw [if_neg h]
    refine ⟨⟨fun hx => ?_, fun hx => absurd hx h⟩, fun hx => absurd hx h⟩
    exfalso
    rcases initBuf with _ | ib
    · dsimp only at hx
      rcases hsocks : socks with _ | _ <;> rw [hsocks] at hx
      · simp at hx
      · rcases hp : parseUDPHeaderBuf (datagram.take blen) true with e | pr <;>
          rw [hp] at hx <;> simp at hx
    · simp at hx

/-- C7: in SOCKS mode, a datagram that is a valid SOCKS5 UDP header followed
by a payload P is stripped: Read deposits a 2-byte big-endian length prefix
equal to len(P) followed by exactly the bytes of P, and returns
len(P) + 2. -/
theorem read_socks_strips_header (blen : Nat) (H P : List Nat) (m : Nat)
    (a : UAddr) (hblen : expectedMaxPacketSize ≤ blen)
    (hparse : parseUDPHeaderBuf (H ++ P) true = Except.ok (m, a))
    (hsize : a.size = H.length)
    (hfit : H.length + P.length ≤ blen)
    (hP : P.length < 65536) :
    bridgeRead blen none true (H ++ P) =
      (Except.ok ([P.length / 256, P.length % 256] ++ P, P.length + 2), none) := by
  have hsz7 : 7 ≤ a.size := by
    have h1 := parse_ok_inv (H ++ P) true m a hparse
    exact (parseSize_ok (H ++ P) a.size h1.1).1
  have hd : (H ++ P).take blen = H ++ P := by
    apply List.take_of_length_le
    simp only [List.length_append]
    omega
  unfold bridgeRead
  rw [if_neg (by omega)]
  dsimp only
  rw [if_pos rfl, hd, hparse]
  dsimp only
  have hdrop : (H ++ P).drop a.size = P := by
    rw [hsize]
    exact List.drop_left H P
  have hlen : (H ++ P).length = H.length + P.length := by
    simp
  rw [hdrop, hlen, hsize]
  have htk : P.take (blen - 2) = P := by
    apply List.take_of_length_le
    omega
  rw [htk]
  have hnum : H.length + P.length - H.length = P.length := by omega
  rw [hnum]
  unfold be16
  rw [Nat.mod_eq_of_lt hP]
  rw [show P.length / 256 % 256 = P.length / 256 from
    Nat.mod_eq_of_lt (by omega)]

/-- Witness for read_socks_strips_header: an IPv4-addressed datagram with
payload "PING" is stripped to a 4-byte frame. -/
theorem read_socks_strips_header_witness :
    bridgeRead 2050 none true
        ([0, 0, 0, 1, 1, 2, 3, 4, 0, 53] ++ [80, 73, 78, 71]) =
      (Except.ok ([([80, 73, 78, 71] : List Nat).length / 256,
        ([80, 73, 78, 71] : List Nat).length % 256] ++ [80, 73, 78, 71],
        ([80, 73, 78, 71] : List Nat).length + 2), none) :=
  read_socks_strips_header 2050 [0, 0, 0, 1, 1, 2, 3, 4, 0, 53] [80, 73, 78, 71]
    0 { ip := some [1, 2, 3, 4], host := [], port := 53, size := 10 }
    (by decide) rfl rfl (by decide) (by decide)

/-- Witness for read_undersized_buffer_panics at a 10-byte buffer with a
pending seed. -/
theorem read_undersized_buffer_panics_witness :
    ((bridgeRead 10 (some [1]) true [9]).1 = Except.error RdErr.panicSize ↔
      10 < expectedMaxPacketSize) ∧
    (10 < expectedMaxPacketSize → (bridgeRead 10 (some [1]) true [9]).2 = some [1]) :=
  read_undersized_buffer_panics 10 (some [1]) true [9]

end GoflywayUDP
